import Mathlib

/-!
Verification development for `stubhub_value_alert.py`: a shallow embedding of
the extraction / qualification / deduplication / notification core of the
bot, together with theorems settling the frozen claims about it.

Modelling conventions:
* Python strings are `String` / `List Char`; text scanning is done over
  `List Char`.
* Python `int` is `ℕ` (every integer in the program is obtained from a run
  of decimal digits) and configured thresholds are `ℕ` / `ℚ`.
* Python `float` is `ℚ`.  Every float in the program is parsed from a
  decimal literal and only compared, negated or formatted, and on the
  rationals these operations agree with the IEEE-double semantics for the
  magnitudes involved (distinct one-fractional-digit decimals are farther
  apart than double rounding error, and the integers involved are below
  2^53, so order and equality of the doubles match order and equality of
  the exact rationals).
* Character classes (`\d`, `\s`, `\w`, `[A-Za-z0-9]`) are modelled over
  ASCII, which covers every character the patterns themselves mention.
* The regular-expression searches of the source are hand-compiled to
  scanners over `List Char`; each pattern of the source is deterministic
  after its (greedy, leftmost) semantics are unfolded, and the compilation
  is noted next to each definition.
-/

/-! ### Character classes (ASCII models of the `re` classes) -/

/-- Model of the regex class `\s` (whitespace), restricted to ASCII. -/
def isSpaceC (c : Char) : Bool :=
  c = ' ' || c = '\t' || c = '\n' || c = '\r' || c = '\x0b' || c = '\x0c'

/-- Model of the regex class `\w` (word character), restricted to ASCII:
letters, digits and the underscore. -/
def isWordC (c : Char) : Bool :=
  c.isAlphanum || c = '_'

/-- Model of the regex class `[A-Za-z0-9]`. -/
def isAlnumC (c : Char) : Bool :=
  c.isAlphanum

/-- Model of the regex class `[A-Za-z0-9\-]` used by the section / row
token patterns. -/
def isTokC (c : Char) : Bool :=
  c.isAlphanum || c = '-'

/-- Model of the regex class `[A-Za-z]`. -/
def isAlphaC (c : Char) : Bool :=
  c.isAlpha

/-- Model of the regex class `\d`, restricted to ASCII digits. -/
def isDigitC (c : Char) : Bool :=
  c.isDigit

/-! ### Decimal rendering of naturals (Python `str(int)` / f-string of an
`int`) and its injectivity -/

/-- Decimal digit character: `digitChar d` is the character Python prints
for the digit `d`. -/
def digitChar : ℕ → Char
  | 0 => '0' | 1 => '1' | 2 => '2' | 3 => '3' | 4 => '4'
  | 5 => '5' | 6 => '6' | 7 => '7' | 8 => '8' | _ => '9'

/-- Numeric value of a digit character (left inverse of `digitChar`). -/
def dVal (c : Char) : ℕ := c.toNat - 48

/-- Fuelled decimal rendering; `natDecAux f n` is the decimal form of `n`
provided `n ≤ f`. -/
def natDecAux : ℕ → ℕ → List Char
  | 0, n => [digitChar n]
  | f + 1, n => if n < 10 then [digitChar n]
                else natDecAux f (n / 10) ++ [digitChar (n % 10)]

/-- Decimal rendering of a natural number, the model of Python formatting
an `int` into a string. -/
def natDecimal (n : ℕ) : List Char := natDecAux n n

theorem natDecAux_congr : ∀ f f' n : ℕ, n ≤ f → n ≤ f' →
    natDecAux f n = natDecAux f' n := by
  intro f
  induction f with
  | zero =>
    intro f' n hf _
    interval_cases n
    cases f' <;> simp [natDecAux]
  | succ f ih =>
    intro f' n hf hf'
    cases f' with
    | zero =>
      interval_cases n
      simp [natDecAux]
    | succ f' =>
      by_cases h10 : n < 10
      · simp [natDecAux, h10]
      · have hdiv : n / 10 ≤ n - 1 := by
          have : n / 10 < n := Nat.div_lt_self (by omega) (by omega)
          omega
        simp only [natDecAux, h10, if_false]
        rw [ih f' (n / 10) (by omega) (by omega)]

/-- Clean recurrence for `natDecimal`. -/
theorem natDecimal_eq (n : ℕ) :
    natDecimal n = if n < 10 then [digitChar n]
                   else natDecimal (n / 10) ++ [digitChar (n % 10)] := by
  by_cases h10 : n < 10
  · cases n with
    | zero => simp [natDecimal, natDecAux, h10]
    | succ m => simp [natDecimal, natDecAux, h10]
  · have hdiv : n / 10 ≤ n - 1 := by
      have : n / 10 < n := Nat.div_lt_self (by omega) (by omega)
      omega
    cases n with
    | zero => omega
    | succ m =>
      simp only [natDecimal, natDecAux, h10, if_false]
      rw [natDecAux_congr m ((m + 1) / 10) ((m + 1) / 10) (by omega) (by omega)]

theorem dVal_digitChar : ∀ d : ℕ, d < 10 → dVal (digitChar d) = d := by decide

theorem digitChar_isDigit : ∀ d : ℕ, d < 10 → (digitChar d).isDigit = true := by
  decide

/-- Numeric value of a digit string (reading left to right). -/
def digitsVal (l : List Char) : ℕ := l.foldl (fun a c => a * 10 + dVal c) 0

theorem digitsVal_append_digit (l : List Char) (c : Char) :
    digitsVal (l ++ [c]) = digitsVal l * 10 + dVal c := by
  simp [digitsVal, List.foldl_append]

theorem digitsVal_natDecimal (n : ℕ) : digitsVal (natDecimal n) = n := by
  induction n using Nat.strong_induction_on with
  | _ n ih =>
    rw [natDecimal_eq]
    by_cases h10 : n < 10
    · simp [h10, digitsVal, dVal_digitChar n h10]
    · have hlt : n / 10 < n := Nat.div_lt_self (by omega) (by omega)
      simp only [h10, if_false, digitsVal_append_digit, ih (n / 10) hlt,
        dVal_digitChar (n % 10) (Nat.mod_lt n (by omega))]
      omega

theorem natDecimal_inj {a b : ℕ} (h : natDecimal a = natDecimal b) : a = b := by
  have ha := digitsVal_natDecimal a
  have hb := digitsVal_natDecimal b
  rw [h] at ha
  omega

theorem natDecimal_ne_nil (n : ℕ) : natDecimal n ≠ [] := by
  rw [natDecimal_eq]
  by_cases h10 : n < 10 <;> simp [h10]

theorem natDecimal_all_digits (n : ℕ) :
    ∀ c ∈ natDecimal n, c.isDigit = true := by
  induction n using Nat.strong_induction_on with
  | _ n ih =>
    rw [natDecimal_eq]
    by_cases h10 : n < 10
    · simp only [h10, if_true, List.mem_singleton]
      intro c hc
      subst hc
      exact digitChar_isDigit n h10
    · have hlt : n / 10 < n := Nat.div_lt_self (by omega) (by omega)
      simp only [h10, if_false, List.mem_append, List.mem_singleton]
      intro c hc
      rcases hc with hc | hc
      · exact ih (n / 10) hlt c hc
      · subst hc
        exact digitChar_isDigit (n % 10) (Nat.mod_lt n (by omega))

/-! ### Rendering of Python floats and optional values

Python formats a float into its shortest round-tripping decimal form.  Every
float this program stores in a `Listing` is parsed from a decimal literal
with one fractional digit (`extract_score_and_word`), for which that form is
exactly `<int>.<digit>` (optionally signed).  `pyFloatRepr` renders exactly
that decimal form whenever the rational has such a representation
(denominator dividing 10) and falls back to an (injective, never reached by
program values) `num/den` rendering otherwise. -/

/-- Decimal form `<t div 10>.<t mod 10>` of a number of tenths. -/
def tenthsChars (t : ℕ) : List Char :=
  natDecimal (t / 10) ++ '.' :: natDecimal (t % 10)

/-- Rendering of a Python float (modelled as `ℚ`), see the section header. -/
def pyFloatRepr (q : ℚ) : List Char :=
  if 10 % q.den = 0 then
    let t : ℕ := q.num.natAbs * (10 / q.den)
    if q.num < 0 then '-' :: tenthsChars t else tenthsChars t
  else
    (if q.num < 0 then '-' :: natDecimal q.num.natAbs
     else natDecimal q.num.natAbs) ++ '/' :: natDecimal q.den

/-- Model of the Python f-string fragment `f"{x}"` for an
`Optional[float]`: `None` prints as `None`. -/
def scoreChars : Option ℚ → List Char
  | none => "None".data
  | some q => pyFloatRepr q

/-- Model of the Python f-string fragment `f"{x}"` for an
`Optional[str]`: `None` prints as `None`, a string prints as itself. -/
def wordChars : Option String → List Char
  | none => "None".data
  | some w => w.data

/-! ### Data model -/

/-- Model of the `Listing` dataclass (source lines 73–81). -/
structure Listing where
  «section» : String
  row : String
  qty : ℕ
  price_incl_fees : String
  value_score : Option ℚ
  rating_word : Option String
  url : String
deriving DecidableEq

/-- Model of the configuration surface (the module-level constants of the
source, lines 49–55), gathered into one record.  Field names follow the
environment variables they are loaded from. -/
structure Config where
  EVENT_URL : String
  MIN_VALUE_SCORE : ℚ
  CHECK_INTERVAL_SECONDS : ℚ
  MIN_TICKETS : ℕ
  DIGEST_INTERVAL_SECONDS : ℚ
  DIGEST_TOP_N : ℕ

/-! ### Fingerprint (source lines 102–104)

`listing_fingerprint` builds the string
`f"{section}|{row}|{qty}|{price}|{score}|{word}|{url}"` and returns its
SHA-256 hex digest.  The digest is a fixed function used by the program
only through equality of fingerprints, so the model keeps the serialized
tuple itself: equal tuples give equal digests unconditionally, and distinct
tuples give distinct digests exactly when SHA-256 does not collide on them
(the code relies on that, and every statement below about distinctness of
fingerprints is to be read modulo that standing assumption). -/

/-- Serialized field tuple of a `Listing`, the exact string the source
hashes (source line 103). -/
def fpChars (l : Listing) : List Char :=
  l.«section».data ++ ('|' :: (l.row.data ++ ('|' :: (natDecimal l.qty ++
    ('|' :: (l.price_incl_fees.data ++ ('|' :: (scoreChars l.value_score ++
    ('|' :: (wordChars l.rating_word ++ ('|' :: l.url.data)))))))))))

/-- Model of `listing_fingerprint` (source lines 102–104); see the section
header for how the SHA-256 step is modelled. -/
def listing_fingerprint (l : Listing) : String :=
  String.mk (fpChars l)

/-! ### Qualification (source lines 176–181) -/

/-- Model of `qualifies` (source lines 176–181): reject when the quantity
is known (nonzero) and below `MIN_TICKETS`; otherwise reject when no score
is present; otherwise accept iff the score reaches `MIN_VALUE_SCORE`. -/
def qualifies (cfg : Config) (l : Listing) : Bool :=
  if l.qty ≠ 0 ∧ l.qty < cfg.MIN_TICKETS then false
  else
    match l.value_score with
    | none => false
    | some s => decide (cfg.MIN_VALUE_SCORE ≤ s)

/-! ### Claims C1 and C4: the qualification predicate -/

/-- A fixed sample configuration used by concrete witnesses below:
threshold score 9.5 (= 19/2), minimum 2 tickets. -/
def cfgW : Config :=
  { EVENT_URL := "https://example.org/event"
    MIN_VALUE_SCORE := mkRat 19 2
    CHECK_INTERVAL_SECONDS := 300
    MIN_TICKETS := 2
    DIGEST_INTERVAL_SECONDS := 3600
    DIGEST_TOP_N := 15 }

/-- C4: a nonzero quantity below the configured minimum rejects the listing
regardless of score; quantity 0 never triggers quantity-based rejection
(the outcome is exactly the score gate); and when the quantity gate passes
and a score is present, the listing is accepted iff the score is at least
the configured minimum. -/
theorem qualifies_gates (cfg : Config) (l : Listing) :
    (l.qty ≠ 0 → l.qty < cfg.MIN_TICKETS → qualifies cfg l = false) ∧
    (l.qty = 0 → qualifies cfg l =
      (match l.value_score with
       | none => false
       | some s => decide (cfg.MIN_VALUE_SCORE ≤ s))) ∧
    (¬(l.qty ≠ 0 ∧ l.qty < cfg.MIN_TICKETS) → ∀ s, l.value_score = some s →
      (qualifies cfg l = true ↔ cfg.MIN_VALUE_SCORE ≤ s)) := by
  refine ⟨fun h1 h2 => ?_, fun h0 => ?_, fun hpass s hs => ?_⟩
  · simp [qualifies, h1, h2]
  · simp [qualifies, h0]
  · simp [qualifies, hpass, hs]

/-- Witness for `qualifies_gates` at concrete inputs: quantity 1 with
minimum 2 is rejected even with score 9.6; an unknown quantity (0) with
score 9.6 is accepted iff 9.5 ≤ 9.6. -/
theorem qualifies_gates_witness :
    ((1 : ℕ) ≠ 0 ∧ (1 : ℕ) < 2) ∧
    qualifies cfgW
      { «section» := "A1", row := "B", qty := 1, price_incl_fees := "$36",
        value_score := some (mkRat 96 10), rating_word := some "Amazing",
        url := "u" } = false ∧
    (qualifies cfgW
      { «section» := "A1", row := "B", qty := 0, price_incl_fees := "$36",
        value_score := some (mkRat 96 10), rating_word := some "Amazing",
        url := "u" } = true ↔ mkRat 19 2 ≤ mkRat 96 10) := by
  refine ⟨by decide, ?_, ?_⟩
  · exact (qualifies_gates cfgW _).1 (by decide) (by decide)
  · exact (qualifies_gates cfgW _).2.2 (by decide) (mkRat 96 10) rfl

/-- C1 counterexample: a listing whose quantity gate passes (`qty = 0`) and
whose numeric score is absent is rejected by `qualifies` — the code has no
deal-label fallback at all (the `Listing` dataclass has no deal-label field
and no allow-list configuration exists), so the acceptance the claim
describes never happens. -/
theorem no_label_fallback_counterexample :
    Listing.qty
        { «section» := "A1", row := "B", qty := 0, price_incl_fees := "$36",
          value_score := none, rating_word := none, url := "u" } = 0 ∧
    Listing.value_score
        { «section» := "A1", row := "B", qty := 0, price_incl_fees := "$36",
          value_score := none, rating_word := none, url := "u" } = none ∧
    qualifies cfgW
      { «section» := "A1", row := "B", qty := 0, price_incl_fees := "$36",
        value_score := none, rating_word := none, url := "u" } = false := by
  refine ⟨rfl, rfl, by decide⟩

/-- C1 amended: a listing with no numeric score is always rejected by
`qualifies`, whatever the rest of the listing and the configuration — the
code implements no deal-label fallback. -/
theorem no_score_always_rejected (cfg : Config) (l : Listing)
    (h : l.value_score = none) : qualifies cfg l = false := by
  by_cases hq : l.qty ≠ 0 ∧ l.qty < cfg.MIN_TICKETS
  · simp [qualifies, hq]
  · simp [qualifies, hq, h]

/-- Witness for `no_score_always_rejected` at a concrete scoreless
listing. -/
theorem no_score_always_rejected_witness :
    qualifies cfgW
      { «section» := "A1", row := "B", qty := 3, price_incl_fees := "$36",
        value_score := none, rating_word := none, url := "u" } = false :=
  no_score_always_rejected cfgW _ rfl

/-! ### Quantity extraction (source lines 137–144) and claims C3, C10

The source searches `chunk` for the pattern `(\d+)\s+tickets?` (ignoring
case) and returns the integer value of the first match's digit group, or 0
when there is no match.  There is no other branch.  The pattern is
deterministic at a given start position: `\d+` and `\s+` are greedy over
disjoint character classes, so no backtracking alternative exists, and the
trailing `s?` does not affect whether a match exists. -/

/-- Match of `(\d+)\s+tickets?` (IGNORECASE) anchored at the head of `l`,
returning the digit group's value. -/
def ticketsHere (l : List Char) : Option ℕ :=
  let ds := l.takeWhile isDigitC
  if ds.isEmpty then none
  else
    let r1 := l.drop ds.length
    let ws := r1.takeWhile isSpaceC
    if ws.isEmpty then none
    else
      let r2 := r1.drop ws.length
      if "ticket".data.isPrefixOf (r2.map Char.toLower) then some (digitsVal ds)
      else none

/-- Leftmost match of `(\d+)\s+tickets?` over the whole string: the scan of
`re.search`. -/
def firstTicketsNum : List Char → Option ℕ
  | [] => none
  | c :: rest =>
    match ticketsHere (c :: rest) with
    | some n => some n
    | none => firstTicketsNum rest

/-- Model of `extract_qty` (source lines 137–144): value of the first
`<N> ticket(s)` match, else the sentinel 0.  (`int` on a digit group never
raises, so the `except` branch is dead.) -/
def extract_qty (chunk : String) : ℕ :=
  (firstTicketsNum chunk.data).getD 0

theorem firstTicketsNum_spec (l : List Char) :
    (∃ i n, ticketsHere (l.drop i) = some n ∧
      (∀ j, j < i → ticketsHere (l.drop j) = none) ∧
      firstTicketsNum l = some n) ∨
    ((∀ i, ticketsHere (l.drop i) = none) ∧ firstTicketsNum l = none) := by
  induction l with
  | nil =>
    right
    constructor
    · intro i
      simp [List.drop_nil, ticketsHere, List.takeWhile]
    · rfl
  | cons c rest ih =>
    cases h : ticketsHere (c :: rest) with
    | some n =>
      left
      exact ⟨0, n, by simpa using h, by omega,
        by simp [firstTicketsNum, h]⟩
    | none =>
      rcases ih with ⟨i, n, hi, hmin, heq⟩ | ⟨hall, heq⟩
      · left
        refine ⟨i + 1, n, by simpa using hi, ?_, by simp [firstTicketsNum, h, heq]⟩
        intro j hj
        cases j with
        | zero => simpa using h
        | succ j => simpa using hmin j (by omega)
      · right
        constructor
        · intro i
          cases i with
          | zero => simpa using h
          | succ i => simpa using hall i
        · simp [firstTicketsNum, h, heq]

/-- C3 amended: `extract_qty` returns the value of the leftmost
`<N> ticket(s)` match when one exists, and the sentinel 0 when no position
of the chunk matches that pattern; there is no `qty`/`quantity` fallback. -/
theorem extract_qty_leftmost (chunk : String) :
    (∃ i n, ticketsHere (chunk.data.drop i) = some n ∧
      (∀ j, j < i → ticketsHere (chunk.data.drop j) = none) ∧
      extract_qty chunk = n) ∨
    ((∀ i, ticketsHere (chunk.data.drop i) = none) ∧ extract_qty chunk = 0) := by
  rcases firstTicketsNum_spec chunk.data with ⟨i, n, hi, hmin, heq⟩ | ⟨hall, heq⟩
  · exact Or.inl ⟨i, n, hi, hmin, by simp [extract_qty, heq]⟩
  · exact Or.inr ⟨hall, by simp [extract_qty, heq]⟩

/-- C3 counterexample: a chunk with an explicit `qty 4` token but no
`<N> ticket(s)` pattern.  The claim's fallback would return 4; the code
returns the sentinel 0 because no fallback exists. -/
theorem extract_qty_no_fallback_counterexample :
    firstTicketsNum ("Section A1 Row B qty 4 $50").data = none ∧
    extract_qty "Section A1 Row B qty 4 $50" = 0 ∧ (0 : ℕ) ≠ 4 := by
  refine ⟨by decide, by decide, by decide⟩

/-- Quantity pre-filter of the main loop (source line 450): keep listings
with unknown quantity (0) or at least `MIN_TICKETS` tickets. -/
def qty_pre (cfg : Config) (l : Listing) : Bool :=
  l.qty == 0 || decide (cfg.MIN_TICKETS ≤ l.qty)

/-- C10: a chunk whose first ticket-count match is literally `0 tickets`
makes `extract_qty` return 0, the same value as the "unknown" sentinel;
a listing with quantity 0 passes the main loop's quantity pre-filter and
its qualification outcome is exactly the score gate — quantity-based
rejection never fires. -/
theorem zero_tickets_indistinguishable (cfg : Config) (chunk : String)
    (l : Listing) (hm : firstTicketsNum chunk.data = some 0) (hq : l.qty = 0) :
    extract_qty chunk = 0 ∧
    qty_pre cfg l = true ∧
    qualifies cfg l = (match l.value_score with
      | none => false
      | some s => decide (cfg.MIN_VALUE_SCORE ≤ s)) := by
  refine ⟨by simp [extract_qty, hm], by simp [qty_pre, hq], ?_⟩
  exact (qualifies_gates cfg l).2.1 hq

/-- Witness for `zero_tickets_indistinguishable`: the chunk
`Section A1 Row B 0 tickets $36` first matches `0 tickets`, and a
corresponding listing with quantity 0 and score 9.6 passes the quantity
gates. -/
theorem zero_tickets_indistinguishable_witness :
    extract_qty "Section A1 Row B 0 tickets $36" = 0 ∧
    qty_pre cfgW
      { «section» := "A1", row := "B", qty := 0, price_incl_fees := "$36",
        value_score := some (mkRat 96 10), rating_word := some "Amazing",
        url := "u" } = true ∧
    qualifies cfgW
      { «section» := "A1", row := "B", qty := 0, price_incl_fees := "$36",
        value_score := some (mkRat 96 10), rating_word := some "Amazing",
        url := "u" } =
      (match some (mkRat 96 10) with
       | none => false
       | some s => decide (mkRat 19 2 ≤ s)) :=
  zero_tickets_indistinguishable cfgW "Section A1 Row B 0 tickets $36" _
    (by decide) rfl

/-! ### Text normalization (source lines 33–36) -/

/-- Replacement of the zero-width characters `​` and `﻿` by a
space (source line 34). -/
def zwToSpace (c : Char) : Char :=
  if c = '​' ∨ c = '﻿' then ' ' else c

/-- Collapse every maximal whitespace run into a single space, the model of
`re.sub(r"\s+", " ", s)` (source line 35). -/
def squashWS : List Char → List Char
  | [] => []
  | [c] => if isSpaceC c then [' '] else [c]
  | c1 :: c2 :: rest =>
    if isSpaceC c1 && isSpaceC c2 then squashWS (c2 :: rest)
    else (if isSpaceC c1 then ' ' else c1) :: squashWS (c2 :: rest)

/-- Model of Python `str.strip()`: drop whitespace from both ends. -/
def stripWS (l : List Char) : List Char :=
  ((l.dropWhile isSpaceC).reverse.dropWhile isSpaceC).reverse

/-- Model of `normalize_spaces` (source lines 33–36) on character lists. -/
def normalizeC (l : List Char) : List Char :=
  stripWS (squashWS (l.map zwToSpace))

/-- Model of `normalize_spaces` (source lines 33–36). -/
def normalize_spaces (s : String) : String :=
  String.mk (normalizeC s.data)

/-! ### Block segmentation (source lines 130–135)

`split_into_listing_chunks` normalizes the block, keeps the prefix before
the first match of `\bShowing\s+\d+\s+of\s+\d+\b` (stripped), splits the
result before every position matching the zero-width lookahead
`(?=\bSection\s+[A-Za-z0-9]+\b)` (both regexes case-SENSITIVE), and keeps
the stripped pieces whose lowercase form starts with `"section "`.

The word boundary `\b` before a literal letter holds iff the previous
character is not a word character (tracked by the `prevW` flag of each
scanner, `false` at the start of the text); the boundary after the greedy
run `[A-Za-z0-9]+` (or `\d+`) can, after backtracking, only close the full
run — any shorter split puts two word characters side by side — and holds
iff the character following the run is not a word character (it is already
not alphanumeric, so the only excluded follower is an underscore). -/

/-- Match of `\bShowing\s+\d+\s+of\s+\d+\b` anchored at the head, given
whether the preceding character is a word character. -/
def showingHere (prevW : Bool) (l : List Char) : Bool :=
  if prevW then false
  else if "Showing".data.isPrefixOf l then
    let r0 := l.drop 7
    let ws1 := r0.takeWhile isSpaceC
    let r1 := r0.drop ws1.length
    let d1 := r1.takeWhile isDigitC
    let r2 := r1.drop d1.length
    let ws2 := r2.takeWhile isSpaceC
    let r3 := r2.drop ws2.length
    if "of".data.isPrefixOf r3 then
      let r4 := r3.drop 2
      let ws3 := r4.takeWhile isSpaceC
      let r5 := r4.drop ws3.length
      let d2 := r5.takeWhile isDigitC
      let r6 := r5.drop d2.length
      !ws1.isEmpty && !d1.isEmpty && !ws2.isEmpty && !ws3.isEmpty &&
        !d2.isEmpty &&
        (match r6.head? with | none => true | some c => !isWordC c)
    else false
  else false

/-- Text before the leftmost `Showing <n> of <m>` marker, the model of
`re.split(pattern, t, maxsplit=1)[0]` (source line 132). -/
def cutShowingGo (prevW : Bool) (acc : List Char) : List Char → List Char
  | [] => acc.reverse
  | c :: rest =>
    if showingHere prevW (c :: rest) then acc.reverse
    else cutShowingGo (isWordC c) (c :: acc) rest

/-- See `cutShowingGo`. -/
def cutShowing (l : List Char) : List Char := cutShowingGo false [] l

/-- Match of the lookahead body `\bSection\s+[A-Za-z0-9]+\b` anchored at
the head (case-sensitive, as in the split pattern of source line 133). -/
def anchorHere (prevW : Bool) (l : List Char) : Bool :=
  if prevW then false
  else if "Section".data.isPrefixOf l then
    let r0 := l.drop 7
    let ws := r0.takeWhile isSpaceC
    let r1 := r0.drop ws.length
    let tok := r1.takeWhile isAlnumC
    let r2 := r1.drop tok.length
    !ws.isEmpty && !tok.isEmpty &&
      (match r2.head? with | none => true | some c => !isWordC c)
  else false

/-- Split before every anchor position, the model of
`re.split(r"(?=\bSection\s+[A-Za-z0-9]+\b)", t)` (source line 133): a
match at position 0 yields an empty first piece, exactly as `re.split`
does on a zero-width leading match. -/
def splitAnchorsGo (prevW : Bool) (cur : List Char) : List Char → List (List Char)
  | [] => [cur.reverse]
  | c :: rest =>
    if anchorHere prevW (c :: rest) then
      cur.reverse :: splitAnchorsGo (isWordC c) [c] rest
    else splitAnchorsGo (isWordC c) (c :: cur) rest

/-- See `splitAnchorsGo`. -/
def splitAnchors (l : List Char) : List (List Char) := splitAnchorsGo false [] l

/-- Does any position of `l` match the anchor lookahead?  (Not part of the
source; used to state the zero-anchor case of C9.) -/
def anyAnchorGo (prevW : Bool) : List Char → Bool
  | [] => false
  | c :: rest => anchorHere prevW (c :: rest) || anyAnchorGo (isWordC c) rest

/-- See `anyAnchorGo`. -/
def anyAnchor (l : List Char) : Bool := anyAnchorGo false l

/-- The chunk filter of source line 134:
`p.strip().lower().startswith("section ")`, applied here to the already
stripped piece. -/
def lcSectionStart (p : List Char) : Bool :=
  "section ".data.isPrefixOf (p.map Char.toLower)

/-- Model of `split_into_listing_chunks` (source lines 130–135). -/
def split_into_listing_chunks (block_text : String) : List String :=
  let t := stripWS (cutShowing (normalizeC block_text.data))
  let parts := splitAnchors t
  (((parts.map stripWS).filter lcSectionStart).map String.mk)

/-! ### Claim C9: segmentation -/

theorem anchorHere_true_prevW (cur r : List Char) (c : Char) :
    splitAnchorsGo true cur (c :: r) = splitAnchorsGo (isWordC c) (c :: cur) r := by
  simp [splitAnchorsGo, anchorHere]

theorem splitAnchorsGo_split (prevW : Bool) (cur : List Char) (c : Char)
    (r : List Char) (h : anchorHere prevW (c :: r) = true) :
    splitAnchorsGo prevW cur (c :: r) =
      cur.reverse :: splitAnchorsGo (isWordC c) [c] r := by
  rw [splitAnchorsGo, if_pos h]

theorem splitAnchorsGo_nosplit (prevW : Bool) (cur : List Char) (c : Char)
    (r : List Char) (h : ¬anchorHere prevW (c :: r) = true) :
    splitAnchorsGo prevW cur (c :: r) =
      splitAnchorsGo (isWordC c) (c :: cur) r := by
  rw [splitAnchorsGo, if_neg h]

theorem anchorHere_sectionPrefix {prevW : Bool} {l : List Char}
    (h : anchorHere prevW l = true) : "Section".data.isPrefixOf l = true := by
  by_cases hp : prevW
  · simp [anchorHere, hp] at h
  · by_cases hpre : "Section".data.isPrefixOf l
    · exact hpre
    · simp [anchorHere, hp, hpre] at h

/-- Skipping the six letters `ection` never splits: each is preceded by a
word character. -/
theorem sectionSkip (r' cur : List Char) :
    splitAnchorsGo (isWordC 'S') cur ('e' :: 'c' :: 't' :: 'i' :: 'o' :: 'n' :: r') =
    splitAnchorsGo (isWordC 'n') ('n' :: 'o' :: 'i' :: 't' :: 'c' :: 'e' :: cur) r' := by
  have hS : isWordC 'S' = true := by decide
  have he : isWordC 'e' = true := by decide
  have hc : isWordC 'c' = true := by decide
  have ht : isWordC 't' = true := by decide
  have hi : isWordC 'i' = true := by decide
  have ho : isWordC 'o' = true := by decide
  rw [hS, anchorHere_true_prevW, he, anchorHere_true_prevW, hc,
    anchorHere_true_prevW, ht, anchorHere_true_prevW, hi,
    anchorHere_true_prevW, ho, anchorHere_true_prevW]

theorem splitAnchorsGo_flatten (rest : List Char) : ∀ (prevW : Bool)
    (cur : List Char), (splitAnchorsGo prevW cur rest).flatten = cur.reverse ++ rest := by
  induction rest with
  | nil => intro prevW cur; simp [splitAnchorsGo]
  | cons c r ih =>
    intro prevW cur
    by_cases ha : anchorHere prevW (c :: r)
    · simp [splitAnchorsGo, ha, ih]
    · simp [splitAnchorsGo, ha, ih]

theorem splitAnchorsGo_head (rest : List Char) : ∀ (prevW : Bool)
    (cur : List Char), ∃ s t,
    splitAnchorsGo prevW cur rest = (cur.reverse ++ s) :: t := by
  induction rest with
  | nil => intro prevW cur; exact ⟨[], [], by simp [splitAnchorsGo]⟩
  | cons c r ih =>
    intro prevW cur
    by_cases ha : anchorHere prevW (c :: r)
    · exact ⟨[], splitAnchorsGo (isWordC c) [c] r, by simp [splitAnchorsGo, ha]⟩
    · obtain ⟨s, t, hgo⟩ := ih (isWordC c) (c :: cur)
      refine ⟨c :: s, t, ?_⟩
      simp only [splitAnchorsGo, ha, if_false, hgo, List.reverse_cons,
        List.append_assoc, List.singleton_append]
      simp [ha]

theorem splitAnchorsGo_noAnchor (rest : List Char) : ∀ (prevW : Bool)
    (cur : List Char), anyAnchorGo prevW rest = false →
    splitAnchorsGo prevW cur rest = [cur.reverse ++ rest] := by
  induction rest with
  | nil => intro prevW cur _; simp [splitAnchorsGo]
  | cons c r ih =>
    intro prevW cur h
    simp only [anyAnchorGo, Bool.or_eq_false_iff] at h
    simp only [splitAnchorsGo, h.1, if_false]
    rw [ih (isWordC c) (c :: cur) h.2]
    simp

theorem splitAnchorsGo_tail_section : ∀ (n : ℕ) (rest : List Char),
    rest.length ≤ n → ∀ (prevW : Bool) (cur : List Char),
    ∀ p ∈ (splitAnchorsGo prevW cur rest).tail,
    "Section".data.isPrefixOf p = true := by
  intro n
  induction n with
  | zero =>
    intro rest hlen prevW cur p hp
    have : rest = [] := List.length_eq_zero.mp (by omega)
    subst this
    simp [splitAnchorsGo] at hp
  | succ n ih =>
    intro rest hlen prevW cur p hp
    cases rest with
    | nil => simp [splitAnchorsGo] at hp
    | cons c r =>
      by_cases ha : anchorHere prevW (c :: r)
      · have hpre := anchorHere_sectionPrefix ha
        obtain ⟨r', hr⟩ := List.isPrefixOf_iff_prefix.mp hpre
        have hc : c = 'S' ∧ r = 'e' :: 'c' :: 't' :: 'i' :: 'o' :: 'n' :: r' := by
          have hr2 : 'S' :: 'e' :: 'c' :: 't' :: 'i' :: 'o' :: 'n' :: r' = c :: r := hr
          simp only [List.cons.injEq] at hr2
          exact ⟨hr2.1.symm, hr2.2.symm⟩
        obtain ⟨hc1, hc2⟩ := hc
        subst hc1
        subst hc2
        rw [splitAnchorsGo_split prevW cur 'S' _ ha, List.tail_cons,
          sectionSkip] at hp
        obtain ⟨s, t, hgo⟩ :=
          splitAnchorsGo_head r' (isWordC 'n') ['n', 'o', 'i', 't', 'c', 'e', 'S']
        rw [hgo] at hp
        rcases List.mem_cons.mp hp with hph | hpt
        · subst hph
          exact List.isPrefixOf_iff_prefix.mpr
            (by exact List.prefix_append "Section".data s)
        · have hlen2 : r'.length ≤ n := by
            simp only [List.length_cons] at hlen
            omega
          have := ih r' hlen2 (isWordC 'n') ['n', 'o', 'i', 't', 'c', 'e', 'S'] p
          rw [hgo] at this
          exact this hpt
      · rw [splitAnchorsGo_nosplit prevW cur c r ha] at hp
        have hlen2 : r.length ≤ n := by
          simp only [List.length_cons] at hlen
          omega
        exact ih r hlen2 (isWordC c) (c :: cur) p hp

/-- C9 counterexample, two concrete blocks.  First: `section 101 Row A $50`
contains no anchor at all (the anchor regex is case-sensitive), yet the
chunk filter is case-insensitive, so segmentation emits the whole block as
one chunk instead of the empty sequence.  Second: in `Section Section A1`
the anchor at position 0 starts a piece (`Section `) that is *not* emitted
— its stripped form lacks the trailing space the filter requires — so not
every anchor-initial piece becomes a chunk. -/
theorem segmentation_counterexample :
    anyAnchor (stripWS (cutShowing (normalizeC ("section 101 Row A $50").data)))
      = false ∧
    split_into_listing_chunks "section 101 Row A $50"
      = ["section 101 Row A $50"] ∧
    anchorHere false ("Section Section A1").data = true ∧
    split_into_listing_chunks "Section Section A1" = ["Section A1"] := by
  exact ⟨by decide, by decide, by decide, by decide⟩

/-- C9 amended: segmentation discards everything at and after the first
`Showing <n> of <m>` marker, splits the remaining text before every
(case-sensitive) `Section <alphanumeric-id>` anchor — the pieces
concatenate back to the text and every piece after the first starts with
`Section` — and emits, in left-to-right order, exactly the stripped pieces
whose lowercase form starts with `"section "`; in particular, with zero
anchors the result is empty unless the whole remaining block passes that
filter, in which case it is the single chunk. -/
theorem segmentation_structure (bt : String) :
    ((splitAnchors (stripWS (cutShowing (normalizeC bt.data)))).flatten
        = stripWS (cutShowing (normalizeC bt.data))) ∧
    (∀ s ∈ split_into_listing_chunks bt, lcSectionStart s.data = true) ∧
    (∀ p ∈ (splitAnchors (stripWS (cutShowing (normalizeC bt.data)))).tail,
        "Section".data.isPrefixOf p = true) ∧
    (((splitAnchors (stripWS (cutShowing (normalizeC bt.data)))).map
        stripWS).filter lcSectionStart).Sublist
      ((splitAnchors (stripWS (cutShowing (normalizeC bt.data)))).map stripWS) ∧
    (anyAnchor (stripWS (cutShowing (normalizeC bt.data))) = false →
      split_into_listing_chunks bt =
        if lcSectionStart (stripWS (stripWS (cutShowing (normalizeC bt.data))))
        then [String.mk (stripWS (stripWS (cutShowing (normalizeC bt.data))))]
        else []) := by
  refine ⟨?_, ?_, ?_, ?_, ?_⟩
  · simpa using splitAnchorsGo_flatten (stripWS (cutShowing (normalizeC bt.data)))
      false []
  · intro s hs
    simp only [split_into_listing_chunks, List.mem_map] at hs
    obtain ⟨p, hp, hps⟩ := hs
    have := List.of_mem_filter hp
    rw [← hps]
    exact this
  · intro p hp
    exact splitAnchorsGo_tail_section
      (stripWS (cutShowing (normalizeC bt.data))).length _ le_rfl false [] p hp
  · exact List.filter_sublist _
  · intro hno
    have hsplit : splitAnchors (stripWS (cutShowing (normalizeC bt.data)))
        = [stripWS (cutShowing (normalizeC bt.data))] := by
      simpa using splitAnchorsGo_noAnchor
        (stripWS (cutShowing (normalizeC bt.data))) false [] hno
    simp only [split_into_listing_chunks, hsplit, List.map_cons, List.map_nil,
      List.filter]
    by_cases hlc : lcSectionStart (stripWS (stripWS (cutShowing (normalizeC bt.data))))
    · simp [hlc]
    · simp [hlc]

/-- Witness for `segmentation_structure` at concrete blocks: every emitted
chunk of `Section A1 Row B` passes the case-insensitive filter; the second
piece of `x Section A1 y Section B2 z` starts with `Section`; and the
anchorless block `section 101 Row A $50` yields itself as single chunk. -/
theorem segmentation_structure_witness :
    lcSectionStart ("Section A1 Row B").data = true ∧
    "Section".data.isPrefixOf ("Section A1 y ").data = true ∧
    split_into_listing_chunks "section 101 Row A $50" =
      (if lcSectionStart (stripWS (stripWS (cutShowing
          (normalizeC ("section 101 Row A $50").data))))
       then [String.mk (stripWS (stripWS (cutShowing
          (normalizeC ("section 101 Row A $50").data))))]
       else []) := by
  refine ⟨?_, ?_, ?_⟩
  · have h := (segmentation_structure "Section A1 Row B").2.1
      "Section A1 Row B" (by decide)
    exact h
  · have h := (segmentation_structure "x Section A1 y Section B2 z").2.2.1
      ("Section A1 y ").data (by decide)
    exact h
  · exact (segmentation_structure "section 101 Row A $50").2.2.2.2 (by decide)

/-! ### Section / row extraction (source lines 146–155)

Pattern `\b<Keyword>\s+([A-Za-z0-9\-]+)\b`, case-insensitive, searched
leftmost.  The greedy group backtracks: a boundary can only close a prefix
of the maximal `[A-Za-z0-9\-]` run, and the regex engine takes the longest
prefix whose last character's word-ness differs from that of the character
following it (end of text counts as non-word). -/

/-- Word-boundary test between a candidate group's last character and the
character following it (`none` at end of text). -/
def boundaryB (c : Char) (next : Option Char) : Bool :=
  match next with
  | none => isWordC c
  | some d => isWordC c != isWordC d

/-- Longest suffix-trimmed nonempty prefix of the run (given reversed)
that ends at a word boundary; models the backtracking of `([...]+)\b`.
First argument: the maximal run, reversed; second: the character following
the full run. -/
def tokBack : List Char → Option Char → Option (List Char)
  | [], _ => none
  | c :: rs, next =>
    if boundaryB c next then some ((c :: rs).reverse)
    else tokBack rs (some c)

/-- Case-insensitive prefix test (both regexes use `re.IGNORECASE`). -/
def ciPrefix (pat l : List Char) : Bool :=
  pat.isPrefixOf (l.map Char.toLower)

/-- Match of `\b<kw>\s+([A-Za-z0-9\-]+)\b` (IGNORECASE) anchored at the
head, returning the group. `kw` is given lowercase. -/
def kwTokHere (kw : List Char) (prevW : Bool) (l : List Char) :
    Option (List Char) :=
  if prevW then none
  else if ciPrefix kw l then
    let r0 := l.drop kw.length
    let ws := r0.takeWhile isSpaceC
    let r1 := r0.drop ws.length
    let run := r1.takeWhile isTokC
    let r2 := r1.drop run.length
    if ws.isEmpty then none
    else tokBack run.reverse r2.head?
  else none

/-- Leftmost `kwTokHere` match (the scan of `re.search`). -/
def firstKwTok (kw : List Char) : Bool → List Char → Option (List Char)
  | _, [] => none
  | prevW, c :: rest =>
    match kwTokHere kw prevW (c :: rest) with
    | some tok => some tok
    | none => firstKwTok kw (isWordC c) rest

/-- Model of `extract_section_row` (source lines 146–155). -/
def extract_section_row (chunk : String) : String × String :=
  (match firstKwTok ("section").data false chunk.data with
   | some tok => String.mk tok
   | none => "Unknown",
   match firstKwTok ("row").data false chunk.data with
   | some tok => String.mk tok
   | none => "Unknown")

/-! ### Price extraction (source lines 157–164)

First regex: `(\$\s?\d[\d,]*)\s*incl\.?\s*fees` (IGNORECASE); second:
`(\$\s?\d[\d,]*)` with no flags.  Neither contains `\b`; both are searched
leftmost; the greedy pieces act over pairwise disjoint character classes,
except the optional `\.?` whose both alternatives are tried (consuming the
dot first). -/

/-- Model of the regex class `[\d,]`. -/
def isDigitCommaC (c : Char) : Bool :=
  c.isDigit || c = ','

/-- Head match of `\$\s?\d[\d,]*`: returns the matched group and the rest
of the text. -/
def dollarCore : List Char → Option (List Char × List Char)
  | '$' :: r0 =>
    match r0 with
    | c1 :: c2 :: rr =>
      if isSpaceC c1 && isDigitC c2 then
        let run := rr.takeWhile isDigitCommaC
        some ('$' :: c1 :: c2 :: run, rr.drop run.length)
      else if isDigitC c1 then
        let run := (c2 :: rr).takeWhile isDigitCommaC
        some ('$' :: c1 :: run, (c2 :: rr).drop run.length)
      else none
    | [c1] => if isDigitC c1 then some (['$', c1], []) else none
    | [] => none
  | _ => none

/-- Head match of `(\$\s?\d[\d,]*)\s*incl\.?\s*fees` (IGNORECASE),
returning the group. -/
def feeHere (l : List Char) : Option (List Char) :=
  match dollarCore l with
  | none => none
  | some (g, r2) =>
    let ws1 := r2.takeWhile isSpaceC
    let r3 := r2.drop ws1.length
    if ciPrefix ("incl").data r3 then
      let r4 := r3.drop 4
      let r5 := match r4 with
        | '.' :: rr => rr
        | _ => r4
      let ws2 := r5.takeWhile isSpaceC
      let r6 := r5.drop ws2.length
      if ciPrefix ("fees").data r6 then some g else none
    else none

/-- Leftmost `feeHere` match. -/
def firstFeeGroup : List Char → Option (List Char)
  | [] => none
  | c :: rest =>
    match feeHere (c :: rest) with
    | some g => some g
    | none => firstFeeGroup rest

/-- Leftmost `\$\s?\d[\d,]*` match. -/
def firstDollarGroup : List Char → Option (List Char)
  | [] => none
  | c :: rest =>
    match dollarCore (c :: rest) with
    | some (g, _) => some g
    | none => firstDollarGroup rest

/-- Model of `extract_price_incl_fees` (source lines 157–164):
`m.group(1).replace(" ", "")`, plus the literal suffix in the fee-inclusive
case. -/
def extract_price_incl_fees (chunk : String) : String :=
  match firstFeeGroup chunk.data with
  | some g => String.mk (g.filter (fun c => c ≠ ' ')) ++ " incl. fees"
  | none =>
    match firstDollarGroup chunk.data with
    | some g => String.mk (g.filter (fun c => c ≠ ' '))
    | none => "Unknown"

/-! ### Score and word extraction (source lines 166–174)

Pattern `\b(\d{1,2}\.\d)\s+([A-Za-z]+)\b`: at a given start (preceded by a
non-word character), the greedy `\d{1,2}` tries two digits then one; the
trailing `\b` can only close the full letter run (any shorter split puts
two letters side by side), so it requires the character after the run not
to be a word character. -/

/-- Head match of `\d{1,2}\.\d` returning the value in tenths and the
remaining text. -/
def headScoreNum : List Char → Option (ℕ × List Char)
  | c1 :: rest1 =>
    if isDigitC c1 then
      match rest1 with
      | c2 :: rest2 =>
        if isDigitC c2 then
          match rest2 with
          | '.' :: c3 :: rest3 =>
            if isDigitC c3 then
              some ((dVal c1 * 10 + dVal c2) * 10 + dVal c3, rest3)
            else none
          | _ => none
        else if c2 = '.' then
          match rest2 with
          | c3 :: rest3 =>
            if isDigitC c3 then some (dVal c1 * 10 + dVal c3, rest3) else none
          | [] => none
        else none
      | [] => none
    else none
  | [] => none

/-- Match of the full score-and-word pattern anchored at the head. -/
def scoreHere (prevW : Bool) (l : List Char) : Option (ℚ × List Char) :=
  if prevW then none
  else
    match headScoreNum l with
    | none => none
    | some (t, r) =>
      let ws := r.takeWhile isSpaceC
      let r1 := r.drop ws.length
      let w := r1.takeWhile isAlphaC
      let r2 := r1.drop w.length
      if ws.isEmpty || w.isEmpty then none
      else
        match r2.head? with
        | some d => if isWordC d then none else some (mkRat t 10, w)
        | none => some (mkRat t 10, w)

/-- Leftmost `scoreHere` match. -/
def firstScoreWord : Bool → List Char → Option (ℚ × List Char)
  | _, [] => none
  | prevW, c :: rest =>
    match scoreHere prevW (c :: rest) with
    | some res => some res
    | none => firstScoreWord (isWordC c) rest

/-- Model of `extract_score_and_word` (source lines 166–174).  (`float` on
the matched group never raises, so the `except` branch is dead.) -/
def extract_score_and_word (chunk : String) : Option ℚ × Option String :=
  match firstScoreWord false chunk.data with
  | some (q, w) => (some q, some (String.mk w))
  | none => (none, none)

/-! ### Parsing a scraped block into listings (source lines 389–410) -/

/-- Body of the chunk loop of `scrape_listings` (source lines 391–410):
run the four extractors and apply the plausibility gate (drop the chunk
when section, row and price are all `Unknown`). -/
def parse_chunk (url : String) (c : String) : Option Listing :=
  let qty := extract_qty c
  let sr := extract_section_row c
  let price := extract_price_incl_fees c
  let sw := extract_score_and_word c
  if sr.1 = "Unknown" ∧ sr.2 = "Unknown" ∧ price = "Unknown" then none
  else some
    { «section» := sr.1, row := sr.2, qty := qty, price_incl_fees := price,
      value_score := sw.1, rating_word := sw.2, url := url }

/-- The pure tail of `scrape_listings` (source lines 389–410): blocks to
listings, in block order then chunk order. -/
def scrape_parse (url : String) (blocks : List String) : List Listing :=
  (blocks.map (fun b => (split_into_listing_chunks b).filterMap
    (parse_chunk url))).flatten

/-! ### One polling cycle: qualification, deduplication, seen-store update
(source lines 447–477) and claims C6, C7 -/

/-- Qualifying set of one cycle (source lines 450–451): quantity pre-filter,
then the full predicate. -/
def qualifying_of (cfg : Config) (blocks : List String) : List Listing :=
  ((scrape_parse cfg.EVENT_URL blocks).filter (qty_pre cfg)).filter
    (qualifies cfg)

/-- New hits of a cycle (source lines 456–460): qualifying listings whose
fingerprint is not yet in the seen store, paired with the fingerprint. -/
def new_hits (seen : Finset String) (qual : List Listing) :
    List (String × Listing) :=
  qual.filterMap (fun l =>
    let fp := listing_fingerprint l
    if fp ∈ seen then none else some (fp, l))

/-- Seen store after merging the new fingerprints (source lines 472–473).
When `hits` is empty the loop body adds nothing, so the uniform union is
exact. -/
def seen_after (seen : Finset String) (hits : List (String × Listing)) :
    Finset String :=
  seen ∪ (hits.map Prod.fst).toFinset

/-- Is a "new listings" notification sent this cycle (source line 462)? -/
def new_alert_sent (seen : Finset String) (qual : List Listing) : Bool :=
  !(new_hits seen qual).isEmpty

theorem mem_seen_after (seen : Finset String) (qual : List Listing)
    (l : Listing) (hl : l ∈ qual) :
    listing_fingerprint l ∈ seen_after seen (new_hits seen qual) := by
  by_cases hf : listing_fingerprint l ∈ seen
  · exact Finset.mem_union_left _ hf
  · refine Finset.mem_union_right _ ?_
    rw [List.mem_toFinset, List.mem_map]
    refine ⟨(listing_fingerprint l, l), ?_, rfl⟩
    rw [new_hits, List.mem_filterMap]
    exact ⟨l, hl, by simp [hf]⟩

/-- C6: starting from any seen store, running a second cycle on
byte-identical rendered blocks produces no new hits, sends no "new"
notification, and leaves the seen store (hence its size) unchanged. -/
theorem second_cycle_idempotent (cfg : Config) (seen : Finset String)
    (blocks : List String) :
    new_hits (seen_after seen (new_hits seen (qualifying_of cfg blocks)))
        (qualifying_of cfg blocks) = [] ∧
    new_alert_sent (seen_after seen (new_hits seen (qualifying_of cfg blocks)))
        (qualifying_of cfg blocks) = false ∧
    seen_after (seen_after seen (new_hits seen (qualifying_of cfg blocks)))
        (new_hits (seen_after seen (new_hits seen (qualifying_of cfg blocks)))
          (qualifying_of cfg blocks)) =
      seen_after seen (new_hits seen (qualifying_of cfg blocks)) := by
  have hnil : new_hits
      (seen_after seen (new_hits seen (qualifying_of cfg blocks)))
      (qualifying_of cfg blocks) = [] := by
    rw [new_hits, List.filterMap_eq_nil_iff]
    intro l hl
    simp [mem_seen_after seen (qualifying_of cfg blocks) l hl]
  refine ⟨hnil, ?_, ?_⟩
  · simp [new_alert_sent, hnil]
  · rw [hnil]
    simp [seen_after]

/-- Result of the fallible part of one cycle, as far as the claim C7 is
concerned: the in-memory seen store afterwards, whether a "new"
notification was delivered, and whether `save_seen` was invoked. -/
structure CycleResult where
  seen : Finset String
  alerted : Bool
  persisted : Bool
deriving DecidableEq

/-- Model of one iteration of the `while True` body (source lines 447–477)
up to and including new-alert delivery and persistence, with the two
fallible collaborators as parameters: `scraped = none` models
`scrape_listings` raising (steps 1–2), and `notifyOk = false` models
`pushover_notify` raising during new-alert delivery.  Either exception is
caught at the cycle boundary (source lines 504–505); the fingerprint merge
(lines 472–473) and `save_seen` (line 474) are reached only after
`pushover_notify` returns. -/
def run_cycle (cfg : Config) (seen : Finset String)
    (scraped : Option (List String)) (notifyOk : Bool) : CycleResult :=
  match scraped with
  | none => ⟨seen, false, false⟩
  | some blocks =>
    let qual := qualifying_of cfg blocks
    let hits := new_hits seen qual
    if hits.isEmpty then ⟨seen, false, false⟩
    else if notifyOk then ⟨seen_after seen hits, true, true⟩
    else ⟨seen, false, false⟩

/-- C7: a cycle in which an exception is raised in any step up to and
including new-alert delivery produces no alert and leaves the seen store
untouched (in memory, hence also on disk: `save_seen` is not reached); and
persistence happens only in cycles that delivered a notification. -/
theorem cycle_exception_safety (cfg : Config) (seen : Finset String)
    (scraped : Option (List String)) (notifyOk : Bool) :
    ((scraped = none ∨ notifyOk = false) →
      run_cycle cfg seen scraped notifyOk = ⟨seen, false, false⟩) ∧
    ((run_cycle cfg seen scraped notifyOk).persisted = true →
      (run_cycle cfg seen scraped notifyOk).alerted = true) ∧
    ((run_cycle cfg seen scraped notifyOk).alerted = false →
      (run_cycle cfg seen scraped notifyOk).seen = seen) := by
  cases scraped with
  | none => exact ⟨fun _ => rfl, by simp [run_cycle], by simp [run_cycle]⟩
  | some blocks =>
    by_cases hh : (new_hits seen (qualifying_of cfg blocks)).isEmpty
    · refine ⟨fun h => ?_, ?_, ?_⟩
      · simp [run_cycle, hh]
      · simp [run_cycle, hh]
      · simp [run_cycle, hh]
    · cases hN : notifyOk
      · refine ⟨fun h => ?_, ?_, ?_⟩
        · simp [run_cycle, hh]
        · simp [run_cycle, hh]
        · simp [run_cycle, hh]
      · refine ⟨fun h => ?_, ?_, ?_⟩
        · rcases h with h | h
          · exact absurd h (by simp)
          · exact absurd h (by simp)
        · simp [run_cycle, hh]
        · simp [run_cycle, hh]

/-- Witness for `cycle_exception_safety`: with an empty seen store, a
failed scrape leaves everything unchanged, and so does a failed delivery
on a block with one qualifying listing. -/
theorem cycle_exception_safety_witness :
    run_cycle cfgW ∅ none true = ⟨∅, false, false⟩ ∧
    run_cycle cfgW ∅
      (some ["Section A1 Row B 2 tickets $36 9.9 Amazing"]) false =
      ⟨∅, false, false⟩ := by
  constructor
  · exact (cycle_exception_safety cfgW ∅ none true).1 (Or.inl rfl)
  · exact (cycle_exception_safety cfgW ∅
      (some ["Section A1 Row B 2 tickets $36 9.9 Amazing"]) false).1
      (Or.inr rfl)

/-! ### Price-to-number conversion (source lines 183–188) and the
notification sort order (source lines 462–464 and 483–484); claim C8 -/

/-- The character filter of `re.sub(r"[^\d.]", "", ...)`: keep digits and
dots. -/
def priceDigits (p : String) : List Char :=
  p.data.filter (fun c => c.isDigit || c = '.')

/-- Model of Python `float(m)` on a string of digits and dots: at most one
dot and at least one digit, else failure (`ValueError`). -/
def parseFloat (m : List Char) : Option ℚ :=
  if m.isEmpty then none
  else
    let ip := m.takeWhile Char.isDigit
    let r := m.drop ip.length
    match r with
    | [] => some (mkRat (digitsVal ip) 1)
    | '.' :: fr =>
      if fr.all Char.isDigit then
        if ip.isEmpty && fr.isEmpty then none
        else some (mkRat (digitsVal ip * 10 ^ fr.length + digitsVal fr)
          (10 ^ fr.length))
      else none
    | _ => none

/-- Model of `price_num` (source lines 183–188): numeric value of the
price text after dropping every character but digits and dots; the
sentinel 10^18 when nothing parseable remains (`float` raising lands in
the same branch). -/
def price_num (price_incl : String) : ℚ :=
  match parseFloat (priceDigits price_incl) with
  | some v => v
  | none => mkRat (10 ^ 18) 1

/-- Sort key of both notification sorts (source lines 463 and 483):
negated score (absent treated as 0.0 by `or`) then numeric price. -/
def listingKey (l : Listing) : ℚ × ℚ :=
  (-(l.value_score.getD 0), price_num l.price_incl_fees)

/-- Lexicographic comparison of sort keys: Python's tuple `<=`. -/
def sortKeyLe (a b : ℚ × ℚ) : Bool :=
  decide (a.1 < b.1 ∨ (a.1 = b.1 ∧ a.2 ≤ b.2))

/-- Comparison used by the digest sort (source line 483). -/
def listingLe (a b : Listing) : Bool :=
  sortKeyLe (listingKey a) (listingKey b)

/-- Comparison used by the new-alert sort over `(fingerprint, listing)`
pairs (source line 463). -/
def hitLe (a b : String × Listing) : Bool :=
  sortKeyLe (listingKey a.2) (listingKey b.2)

/-- Stable insertion: place `x` before the first element not strictly
below it, so elements with equal keys keep their original order. -/
def insertStable {α : Type} (le : α → α → Bool) (x : α) : List α → List α
  | [] => [x]
  | y :: ys =>
    if le y x && !le x y then y :: insertStable le x ys else x :: y :: ys

/-- Stable sort.  Python's `sorted` is a stable sort with respect to the
key order, and any two stable sorts for the same total preorder compute
the same function, so this models `sorted` exactly. -/
def sortStable {α : Type} (le : α → α → Bool) (l : List α) : List α :=
  l.foldr (insertStable le) []

/-- The digest sort, `sorted(qualifying, key=...)` (source line 483). -/
def sort_listings (l : List Listing) : List Listing :=
  sortStable listingLe l

/-- The new-alert sort, `sorted(new_hits, key=...)` (source line 463). -/
def sort_hits (l : List (String × Listing)) : List (String × Listing) :=
  sortStable hitLe l

theorem sortKeyLe_trans (p q r : ℚ × ℚ) (h1 : sortKeyLe p q = true)
    (h2 : sortKeyLe q r = true) : sortKeyLe p r = true := by
  simp only [sortKeyLe, decide_eq_true_eq] at h1 h2 ⊢
  rcases h1 with h1 | ⟨h1e, h1le⟩
  · rcases h2 with h2 | ⟨h2e, _⟩
    · exact Or.inl (lt_trans h1 h2)
    · exact Or.inl (h2e ▸ h1)
  · rcases h2 with h2 | ⟨h2e, h2le⟩
    · exact Or.inl (h1e ▸ h2)
    · exact Or.inr ⟨h1e.trans h2e, le_trans h1le h2le⟩

theorem sortKeyLe_total (p q : ℚ × ℚ) :
    sortKeyLe p q = true ∨ sortKeyLe q p = true := by
  simp only [sortKeyLe, decide_eq_true_eq]
  rcases lt_trichotomy p.1 q.1 with h | h | h
  · exact Or.inl (Or.inl h)
  · rcases le_total p.2 q.2 with h2 | h2
    · exact Or.inl (Or.inr ⟨h, h2⟩)
    · exact Or.inr (Or.inr ⟨h.symm, h2⟩)
  · exact Or.inr (Or.inl h)

theorem mem_insertStable {α : Type} (le : α → α → Bool) (x a : α)
    (l : List α) : a ∈ insertStable le x l ↔ a = x ∨ a ∈ l := by
  induction l with
  | nil => simp [insertStable]
  | cons y ys ih =>
    cases hb : (le y x && !le x y) with
    | true =>
      simp only [insertStable, hb, if_true, List.mem_cons, ih]
      tauto
    | false =>
      simp only [insertStable, hb, Bool.false_eq_true, if_false, List.mem_cons]

theorem insertStable_pairwise {α : Type} (le : α → α → Bool)
    (htot : ∀ a b, le a b = true ∨ le b a = true)
    (htrans : ∀ a b c, le a b = true → le b c = true → le a c = true)
    (x : α) (l : List α) (hl : l.Pairwise (fun a b => le a b = true)) :
    (insertStable le x l).Pairwise (fun a b => le a b = true) := by
  induction l with
  | nil => simp [insertStable]
  | cons y ys ih =>
    rw [List.pairwise_cons] at hl
    cases hb : (le y x && !le x y) with
    | true =>
      rw [Bool.and_eq_true] at hb
      have hyx : le y x = true := hb.1
      simp only [insertStable, hb.1, hb.2, Bool.and_self, if_true,
        List.pairwise_cons]
      refine ⟨?_, ih hl.2⟩
      intro z hz
      rcases (mem_insertStable le x z ys).mp hz with hz | hz
      · exact hz ▸ hyx
      · exact hl.1 z hz
    | false =>
      have hxy : le x y = true := by
        rcases Bool.eq_false_or_eq_true (le x y) with ht | hf
        · exact ht
        · rcases htot x y with ht2 | ht2
          · exact ht2
          · rw [ht2, hf] at hb
            simp at hb
      simp only [insertStable, hb, Bool.false_eq_true, if_false,
        List.pairwise_cons]
      refine ⟨?_, ?_⟩
      · intro z hz
        rcases List.mem_cons.mp hz with hz | hz
        · exact hz ▸ hxy
        · exact htrans x y z hxy (hl.1 z hz)
      · exact hl


theorem sortStable_pairwise {α : Type} (le : α → α → Bool)
    (htot : ∀ a b, le a b = true ∨ le b a = true)
    (htrans : ∀ a b c, le a b = true → le b c = true → le a c = true)
    (l : List α) :
    (sortStable le l).Pairwise (fun a b => le a b = true) := by
  induction l with
  | nil => simp [sortStable]
  | cons x xs ih =>
    have : sortStable le (x :: xs) = insertStable le x (sortStable le xs) := rfl
    rw [this]
    exact insertStable_pairwise le htot htrans x _ ih

/-- From a decomposition of a sorted list, the comparison holds between
the two exhibited elements. -/
theorem sortStable_rel {α : Type} (le : α → α → Bool)
    (htot : ∀ a b, le a b = true ∨ le b a = true)
    (htrans : ∀ a b c, le a b = true → le b c = true → le a c = true)
    (l l1 l2 l3 : List α) (a b : α)
    (h : sortStable le l = l1 ++ a :: l2 ++ b :: l3) : le a b = true := by
  have hp := sortStable_pairwise le htot htrans l
  rw [h] at hp
  have hsub : [a, b].Sublist (l1 ++ a :: l2 ++ b :: l3) := by
    have h1 : [b].Sublist (l2 ++ b :: l3) :=
      List.singleton_sublist.mpr (by simp)
    have h2 : [a, b].Sublist (a :: l2 ++ b :: l3) := h1.cons₂ a
    refine h2.trans ?_
    simp
  have hpab := List.Pairwise.sublist hsub hp
  rw [List.pairwise_cons] at hpab
  exact hpab.1 b (by simp)

theorem listingLe_props (u v : Listing) (hle : listingLe u v = true) :
    (∀ su sv, u.value_score = some su → v.value_score = some sv → su ≠ sv →
      sv < su) ∧
    (u.value_score = v.value_score →
      price_num u.price_incl_fees ≤ price_num v.price_incl_fees) := by
  simp only [listingLe, sortKeyLe, listingKey, decide_eq_true_eq] at hle
  constructor
  · intro su sv hsu hsv hne
    rcases hle with h | ⟨he, _⟩
    · rw [hsu, hsv] at h
      simpa using h
    · rw [hsu, hsv] at he
      simp only [Option.getD_some, neg_inj] at he
      exact absurd he hne
  · intro heq
    rcases hle with h | ⟨_, h2⟩
    · rw [heq] at h
      exact absurd h (lt_irrefl _)
    · exact h2

/-- C8 amended: in both notification sorts (the new-alert sort over
`(fingerprint, listing)` pairs and the digest sort over listings), whenever
one element appears before another in the output, distinct scores are in
strictly descending order and equal scores are tie-broken by ascending
`price_num`; consequently a listing with an unparseable price (sentinel
10^18) sorts after every equal-score listing whose parsed price is below
10^18 — but not after one whose parsed price is at least 10^18. -/
theorem notification_sort_order
    (ls l1 l2 l3 : List Listing) (a b : Listing)
    (hs p1 p2 p3 : List (String × Listing)) (x y : String × Listing)
    (hd : sort_listings ls = l1 ++ a :: l2 ++ b :: l3)
    (hh : sort_hits hs = p1 ++ x :: p2 ++ y :: p3) :
    ((∀ sa sb, a.value_score = some sa → b.value_score = some sb → sa ≠ sb →
        sb < sa) ∧
     (a.value_score = b.value_score →
        price_num a.price_incl_fees ≤ price_num b.price_incl_fees) ∧
     (a.value_score = b.value_score →
        parseFloat (priceDigits a.price_incl_fees) = none →
        ∀ w, parseFloat (priceDigits b.price_incl_fees) = some w →
        mkRat (10 ^ 18) 1 ≤ w)) ∧
    ((∀ sa sb, (x.2).value_score = some sa → (y.2).value_score = some sb →
        sa ≠ sb → sb < sa) ∧
     ((x.2).value_score = (y.2).value_score →
        price_num (x.2).price_incl_fees ≤ price_num (y.2).price_incl_fees) ∧
     ((x.2).value_score = (y.2).value_score →
        parseFloat (priceDigits (x.2).price_incl_fees) = none →
        ∀ w, parseFloat (priceDigits (y.2).price_incl_fees) = some w →
        mkRat (10 ^ 18) 1 ≤ w)) := by
  have htotL : ∀ u v : Listing, listingLe u v = true ∨ listingLe v u = true :=
    fun u v => sortKeyLe_total (listingKey u) (listingKey v)
  have htransL : ∀ u v w : Listing, listingLe u v = true →
      listingLe v w = true → listingLe u w = true :=
    fun u v w => sortKeyLe_trans (listingKey u) (listingKey v) (listingKey w)
  have htotH : ∀ u v : String × Listing, hitLe u v = true ∨ hitLe v u = true :=
    fun u v => sortKeyLe_total (listingKey u.2) (listingKey v.2)
  have htransH : ∀ u v w : String × Listing, hitLe u v = true →
      hitLe v w = true → hitLe u w = true :=
    fun u v w =>
      sortKeyLe_trans (listingKey u.2) (listingKey v.2) (listingKey w.2)
  have hab : listingLe a b = true :=
    sortStable_rel listingLe htotL htransL ls l1 l2 l3 a b hd
  have hxy : listingLe x.2 y.2 = true :=
    sortStable_rel hitLe htotH htransH hs p1 p2 p3 x y hh
  have pab := listingLe_props a b hab
  have pxy := listingLe_props x.2 y.2 hxy
  refine ⟨⟨pab.1, pab.2, ?_⟩, ⟨pxy.1, pxy.2, ?_⟩⟩
  · intro he hnone w hw
    have h2 := pab.2 he
    simp only [price_num, hnone, hw] at h2
    exact h2
  · intro he hnone w hw
    have h2 := pxy.2 he
    simp only [price_num, hnone, hw] at h2
    exact h2

/-- Two fixed listings used by the C8 witness: equal everything except
score 9.9 with price $36 versus score 9.5 with price $40. -/
def sortW1 : Listing :=
  { «section» := "A1", row := "B", qty := 2, price_incl_fees := "$40",
    value_score := some (mkRat 95 10), rating_word := some "Great",
    url := "u" }

/-- See `sortW1`. -/
def sortW2 : Listing :=
  { «section» := "C3", row := "D", qty := 2, price_incl_fees := "$36",
    value_score := some (mkRat 99 10), rating_word := some "Amazing",
    url := "u" }

/-- Witness for `notification_sort_order` on concrete two-element inputs:
the 9.9-scored listing sorts before the 9.5-scored one in both sorts, and
the theorem yields 9.5 < 9.9. -/
theorem notification_sort_order_witness : mkRat 95 10 < mkRat 99 10 :=
  (notification_sort_order [sortW1, sortW2] [] [] [] sortW2 sortW1
    [("f1", sortW1), ("f2", sortW2)] [] [] [] ("f2", sortW2) ("f1", sortW1)
    (by decide) (by decide)).1.1 (mkRat 99 10) (mkRat 95 10) rfl rfl
    (by decide)

/-- A listing whose price parses to 2·10^18, above the sentinel. -/
def cxParseable : Listing :=
  { «section» := "A1", row := "B", qty := 2,
    price_incl_fees := "$2000000000000000000",
    value_score := some (mkRat 99 10), rating_word := none, url := "u" }

/-- A listing with an unparseable price. -/
def cxUnknown : Listing :=
  { «section» := "C3", row := "D", qty := 2, price_incl_fees := "Unknown",
    value_score := some (mkRat 99 10), rating_word := none, url := "u" }

/-- C8 counterexample: with equal scores, the listing with unparseable
price (`price_num` sentinel 10^18) sorts *before* a listing whose parseable
price is 2·10^18, in both notification sorts — contradicting "a Listing
with an unparseable price sorts after all Listings with parseable
prices". -/
theorem unparseable_price_counterexample :
    cxUnknown.price_incl_fees = "Unknown" ∧
    parseFloat (priceDigits cxUnknown.price_incl_fees) = none ∧
    parseFloat (priceDigits cxParseable.price_incl_fees) =
      some (mkRat 2000000000000000000 1) ∧
    cxParseable.value_score = cxUnknown.value_score ∧
    sort_listings [cxParseable, cxUnknown] = [cxUnknown, cxParseable] ∧
    sort_hits [("p", cxParseable), ("u", cxUnknown)] =
      [("u", cxUnknown), ("p", cxParseable)] := by
  refine ⟨rfl, by decide, by decide, rfl, by decide, by decide⟩

/-! ### Message formatting (source lines 190–193, 463–469, 483–501) and
digest cadence (source lines 444–445, 479–502); claim C2 -/

/-- Model of the Python format fragment `f"{v:.1f}"`: one fractional
digit.  Every score the program formats already has exactly one fractional
decimal digit (denominator dividing 10), where `:.1f` prints exactly the
stored digits, like `repr`; the otherwise-unreachable general case rounds
to the nearest tenth. -/
def fmtScore1 (q : ℚ) : List Char :=
  if 10 % q.den = 0 then pyFloatRepr q
  else
    let t : ℤ := round (q * 10)
    if t < 0 then '-' :: tenthsChars (-t).toNat else tenthsChars t.toNat

/-- Model of `format_listing` (source lines 190–193).  Python's truthiness
makes an empty rating word behave like an absent one. -/
def format_listing (l : Listing) : String :=
  let score := match l.value_score with
    | some v => String.mk (fmtScore1 v)
    | none => "NA"
  let word := match l.rating_word with
    | some w => if w.isEmpty then "" else " " ++ w
    | none => ""
  "Score " ++ score ++ word ++ " | Section " ++ l.«section» ++ " Row " ++
    l.row ++ " | Qty " ++ String.mk (natDecimal l.qty) ++ " | " ++
    l.price_incl_fees

/-- Model of the new-alert message (source lines 463–469): sorted hits,
top 12, one formatted line each. -/
def new_alert_msg (cfg : Config) (hits : List (String × Listing)) : String :=
  "NEW qualifying listings (qty≥" ++ String.mk (natDecimal cfg.MIN_TICKETS)
    ++ ", score≥" ++ String.mk (pyFloatRepr cfg.MIN_VALUE_SCORE) ++ "):\n"
    ++ String.intercalate "\n"
      (((sort_hits hits).take 12).map (fun x => format_listing x.2))
    ++ "\n\nEvent: " ++ cfg.EVENT_URL

/-- Model of the digest message (source lines 483–499): sorted qualifying
set, top `DIGEST_TOP_N`; an empty top list yields the explicit
"no qualifying listings" text. -/
def digest_msg (cfg : Config) (qualifying : List Listing) : String :=
  let qs := sort_listings qualifying
  let top_n := qs.take cfg.DIGEST_TOP_N
  if top_n.isEmpty then
    "CUMULATIVE snapshot: no qualifying listings visible now (qty≥"
      ++ String.mk (natDecimal cfg.MIN_TICKETS) ++ ", score≥"
      ++ String.mk (pyFloatRepr cfg.MIN_VALUE_SCORE) ++ ").\nEvent: "
      ++ cfg.EVENT_URL
  else
    "CUMULATIVE snapshot (top " ++ String.mk (natDecimal top_n.length)
      ++ ") (qty≥" ++ String.mk (natDecimal cfg.MIN_TICKETS) ++ ", score≥"
      ++ String.mk (pyFloatRepr cfg.MIN_VALUE_SCORE) ++ "):\n"
      ++ String.intercalate "\n" (top_n.map format_listing)
      ++ "\n\nTotal qualifying visible now: "
      ++ String.mk (natDecimal qs.length)
      ++ "\nEvent: " ++ cfg.EVENT_URL

/-- Digest firing decisions over the successive cycles' wall-clock times
(source lines 444–445, 480–482): the timer starts at `0.0`, a digest fires
when `now - last_digest_ts ≥ DIGEST_INTERVAL_SECONDS`, and firing resets
the timer to `now`.  One flag per cycle: at most one digest per cycle. -/
def digest_flags (I : ℚ) : ℚ → List ℚ → List Bool
  | _, [] => []
  | last, t :: ts =>
    if I ≤ t - last then true :: digest_flags I t ts
    else false :: digest_flags I last ts

/-- C2 counterexample: poll interval 5, digest interval 100, process start
at wall-clock time 1000 (cycles at times 1000 and 1005).  Cumulative
elapsed time is 0 and then 5, both below the interval, yet the digest
fires on the very first cycle because the timer baseline is the epoch
(`last_digest_ts = 0.0`), not the process start. -/
theorem digest_first_cycle_counterexample :
    digest_flags 100 0 [1000, 1005] = [true, false] ∧
    ¬((100 : ℚ) ≤ 1000 - 1000) ∧ ¬((100 : ℚ) ≤ 1005 - 1000) := by
  refine ⟨?_, by norm_num, by norm_num⟩
  norm_num [digest_flags]

/-- C2 amended: with the timer initialized to 0, the first digest fires on
the first cycle whose wall-clock time is at least the digest interval — in
practice the very first cycle, regardless of elapsed time since process
start — and the timer then resets to that cycle's time; and when the
digest fires with an empty qualifying set, the single digest message sent
explicitly says "no qualifying listings". -/
theorem digest_schedule (cfg : Config) (I : ℚ) :
    (∀ (pre : List ℚ) (t : ℚ) (post : List ℚ),
      (∀ s ∈ pre, ¬I ≤ s) → I ≤ t →
      digest_flags I 0 (pre ++ t :: post) =
        pre.map (fun _ => false) ++ true :: digest_flags I t post) ∧
    (∃ s u : List Char,
      s ++ ("no qualifying listings").data ++ u = (digest_msg cfg []).data) := by
  constructor
  · intro pre
    induction pre with
    | nil =>
      intro t post _ ht
      simp only [List.nil_append, List.map_nil, digest_flags]
      rw [if_pos (by simpa using ht)]
    | cons s pre ih =>
      intro t post hpre ht
      have hs : ¬I ≤ s := hpre s (by simp)
      simp only [List.cons_append, List.map_cons, digest_flags]
      rw [if_neg (by simpa using hs)]
      simp only [List.cons.injEq, true_and]
      exact ih t post (fun z hz => hpre z (by simp [hz])) ht
  · refine ⟨("CUMULATIVE snapshot: ").data,
      (" visible now (qty≥" ++ String.mk (natDecimal cfg.MIN_TICKETS)
        ++ ", score≥" ++ String.mk (pyFloatRepr cfg.MIN_VALUE_SCORE)
        ++ ").\nEvent: " ++ cfg.EVENT_URL).data, ?_⟩
    simp only [digest_msg, sort_listings, sortStable, List.foldr_nil,
      List.take_nil, List.isEmpty_nil, if_true, String.data_append,
      List.append_assoc]
    rw [← List.append_assoc, ← List.append_assoc]
    congr 1

/-- Witness for `digest_schedule`: with interval 100 and first cycle at
wall-clock time 1000, the digest fires immediately; and the concrete
empty-set digest message for the sample configuration contains the
"no qualifying listings" text. -/
theorem digest_schedule_witness :
    digest_flags 100 0 ([] ++ (1000 : ℚ) :: []) =
      ([] : List ℚ).map (fun _ => false) ++ true :: digest_flags 100 1000 [] ∧
    (∃ s u : List Char,
      s ++ ("no qualifying listings").data ++ u =
        (digest_msg cfgW []).data) := by
  constructor
  · exact (digest_schedule cfgW 100).1 [] 1000 [] (by simp) (by norm_num)
  · exact (digest_schedule cfgW 100).2

/-! ### Claim C5: fingerprint sensitivity to single-field changes -/

theorem append_marker_inj (c : Char) :
    ∀ x1 x2 y1 y2 : List Char, c ∉ x1 → c ∉ x2 →
    x1 ++ c :: y1 = x2 ++ c :: y2 → x1 = x2 ∧ y1 = y2 := by
  intro x1
  induction x1 with
  | nil =>
    intro x2 y1 y2 _ hx2 h
    cases x2 with
    | nil => simpa using h
    | cons b x2 =>
      rw [List.mem_cons] at hx2
      push_neg at hx2
      simp only [List.nil_append, List.cons_append, List.cons.injEq] at h
      exact absurd h.1 hx2.1
  | cons a x1 ih =>
    intro x2 y1 y2 hx1 hx2 h
    rw [List.mem_cons] at hx1
    push_neg at hx1
    cases x2 with
    | nil =>
      simp only [List.nil_append, List.cons_append, List.cons.injEq] at h
      exact absurd h.1.symm hx1.1
    | cons b x2 =>
      rw [List.mem_cons] at hx2
      push_neg at hx2
      simp only [List.cons_append, List.cons.injEq] at h
      obtain ⟨hab, hrest⟩ := h
      obtain ⟨hx, hy⟩ := ih x2 y1 y2 hx1.2 hx2.2 hrest
      exact ⟨by rw [hab, hx], hy⟩

theorem natDecimal_not_mem {n : ℕ} {c : Char} (hc : ¬c.isDigit = true) :
    c ∉ natDecimal n :=
  fun h => hc (natDecimal_all_digits n c h)

theorem natDecimal_head (n : ℕ) :
    ∃ c cs, natDecimal n = c :: cs ∧ c.isDigit = true := by
  cases hnd : natDecimal n with
  | nil => exact absurd hnd (natDecimal_ne_nil n)
  | cons c cs =>
    exact ⟨c, cs, rfl, natDecimal_all_digits n c (by rw [hnd]; simp)⟩

theorem tenthsChars_mem (t : ℕ) :
    ∀ c ∈ tenthsChars t, c.isDigit = true ∨ c = '.' := by
  intro c hc
  simp only [tenthsChars, List.mem_append, List.mem_cons] at hc
  rcases hc with hc | hc | hc
  · exact Or.inl (natDecimal_all_digits _ c hc)
  · exact Or.inr hc
  · exact Or.inl (natDecimal_all_digits _ c hc)

theorem tenthsChars_not_mem {t : ℕ} {c : Char} (h1 : ¬c.isDigit = true)
    (h2 : c ≠ '.') : c ∉ tenthsChars t := by
  intro hmem
  rcases tenthsChars_mem t c hmem with hd | hd
  · exact h1 hd
  · exact h2 hd

theorem tenthsChars_head (t : ℕ) :
    ∃ c cs, tenthsChars t = c :: cs ∧ c.isDigit = true := by
  obtain ⟨c, cs, hnd, hdig⟩ := natDecimal_head (t / 10)
  exact ⟨c, cs ++ '.' :: natDecimal (t % 10), by simp [tenthsChars, hnd], hdig⟩

theorem tenthsChars_inj {t1 t2 : ℕ} (h : tenthsChars t1 = tenthsChars t2) :
    t1 = t2 := by
  obtain ⟨h1, h2⟩ := append_marker_inj '.' (natDecimal (t1 / 10))
    (natDecimal (t2 / 10)) (natDecimal (t1 % 10)) (natDecimal (t2 % 10))
    (natDecimal_not_mem (by decide)) (natDecimal_not_mem (by decide)) h
  have e1 := natDecimal_inj h1
  have e2 := natDecimal_inj h2
  omega

/-- A rational with denominator dividing 10 is determined by its sign and
its number of tenths. -/
theorem tenths_val_inj {q1 q2 : ℚ} (h1 : 10 % q1.den = 0)
    (h2 : 10 % q2.den = 0) (hs : q1.num < 0 ↔ q2.num < 0)
    (ht : q1.num.natAbs * (10 / q1.den) = q2.num.natAbs * (10 / q2.den)) :
    q1 = q2 := by
  have hd1 : q1.den ∣ 10 := Nat.dvd_of_mod_eq_zero h1
  have hd2 : q2.den ∣ 10 := Nat.dvd_of_mod_eq_zero h2
  have hm1 : (10 / q1.den) * q1.den = 10 := Nat.div_mul_cancel hd1
  have hm2 : (10 / q2.den) * q2.den = 10 := Nat.div_mul_cancel hd2
  have ht' : (q1.num.natAbs : ℤ) * ((10 / q1.den : ℕ) : ℤ) =
      (q2.num.natAbs : ℤ) * ((10 / q2.den : ℕ) : ℤ) := by exact_mod_cast ht
  have hkey : q1.num * ((10 / q1.den : ℕ) : ℤ) =
      q2.num * ((10 / q2.den : ℕ) : ℤ) := by
    by_cases hn : q1.num < 0
    · have hn2 : q2.num < 0 := hs.mp hn
      have e1 : (q1.num.natAbs : ℤ) = -q1.num := by omega
      have e2 : (q2.num.natAbs : ℤ) = -q2.num := by omega
      rw [e1, e2, neg_mul, neg_mul, neg_inj] at ht'
      exact ht'
    · have hn2 : ¬q2.num < 0 := fun hc => hn (hs.mpr hc)
      have e1 : (q1.num.natAbs : ℤ) = q1.num := by omega
      have e2 : (q2.num.natAbs : ℤ) = q2.num := by omega
      rw [e1, e2] at ht'
      exact ht'
  have hz1 : ((10 / q1.den : ℕ) : ℤ) * (q1.den : ℤ) = 10 := by
    exact_mod_cast hm1
  have hz2 : ((10 / q2.den : ℕ) : ℤ) * (q2.den : ℤ) = 10 := by
    exact_mod_cast hm2
  have hcross : q1.num * 10 * (q2.den : ℤ) = q2.num * 10 * (q1.den : ℤ) := by
    calc q1.num * 10 * (q2.den : ℤ)
        = q1.num * (((10 / q1.den : ℕ) : ℤ) * (q1.den : ℤ)) * q2.den := by
          rw [hz1]
      _ = (q1.num * ((10 / q1.den : ℕ) : ℤ)) * q1.den * q2.den := by ring
      _ = (q2.num * ((10 / q2.den : ℕ) : ℤ)) * q1.den * q2.den := by
          rw [hkey]
      _ = q2.num * (((10 / q2.den : ℕ) : ℤ) * (q2.den : ℤ)) * q1.den := by
          ring
      _ = q2.num * 10 * (q1.den : ℤ) := by rw [hz2]
  have hint : q1.num * (q2.den : ℤ) = q2.num * (q1.den : ℤ) := by
    have h10 : (10 : ℤ) ≠ 0 := by norm_num
    have : (10 : ℤ) * (q1.num * q2.den) = 10 * (q2.num * q1.den) := by
      linarith [hcross]
    exact mul_left_cancel₀ h10 this
  have hden1 : ((q1.den : ℚ)) ≠ 0 := Nat.cast_ne_zero.mpr (Rat.den_pos q1).ne'
  have hden2 : ((q2.den : ℚ)) ≠ 0 := Nat.cast_ne_zero.mpr (Rat.den_pos q2).ne'
  rw [← Rat.num_div_den q1, ← Rat.num_div_den q2,
    div_eq_div_iff hden1 hden2]
  exact_mod_cast hint

theorem pyFloatRepr_slash_mem {q : ℚ} (h : ¬10 % q.den = 0) :
    ('/') ∈ pyFloatRepr q := by
  simp [pyFloatRepr, h]

theorem pyFloatRepr_no_slash {q : ℚ} (h : 10 % q.den = 0) :
    ('/') ∉ pyFloatRepr q := by
  simp only [pyFloatRepr, h, if_true]
  by_cases hn : q.num < 0
  · simp only [hn, if_true, List.mem_cons]
    rintro (hc | hc)
    · exact absurd hc (by decide)
    · exact tenthsChars_not_mem (by decide) (by decide) hc
  · simp only [hn, if_false]
    exact tenthsChars_not_mem (by decide) (by decide)

theorem pyFloatRepr_inj {q1 q2 : ℚ} (h : pyFloatRepr q1 = pyFloatRepr q2) :
    q1 = q2 := by
  by_cases h1 : 10 % q1.den = 0 <;> by_cases h2 : 10 % q2.den = 0
  · -- both decimal-formatted
    simp only [pyFloatRepr, h1, h2, if_true] at h
    by_cases hn1 : q1.num < 0 <;> by_cases hn2 : q2.num < 0
    · simp only [hn1, hn2, if_true, List.cons.injEq, true_and] at h
      exact tenths_val_inj h1 h2 (by tauto) (tenthsChars_inj h)
    · simp only [hn1, hn2, if_true, if_false] at h
      obtain ⟨c, cs, hT, hdig⟩ :=
        tenthsChars_head (q2.num.natAbs * (10 / q2.den))
      rw [hT] at h
      simp only [List.cons.injEq] at h
      rw [← h.1] at hdig
      exact absurd hdig (by decide)
    · simp only [hn1, hn2, if_true, if_false] at h
      obtain ⟨c, cs, hT, hdig⟩ :=
        tenthsChars_head (q1.num.natAbs * (10 / q1.den))
      rw [hT] at h
      simp only [List.cons.injEq] at h
      rw [h.1] at hdig
      exact absurd hdig (by decide)
    · simp only [hn1, hn2, if_false] at h
      exact tenths_val_inj h1 h2 (by tauto) (tenthsChars_inj h)
  · exact absurd (pyFloatRepr_slash_mem h2) (h ▸ pyFloatRepr_no_slash h1)
  · exact absurd (pyFloatRepr_slash_mem h1) (h.symm ▸ pyFloatRepr_no_slash h2)
  · -- both fallback-formatted
    simp only [pyFloatRepr, h1, h2, if_false] at h
    have hnoslash1 : ('/') ∉ (if q1.num < 0 then '-' :: natDecimal q1.num.natAbs
        else natDecimal q1.num.natAbs) := by
      by_cases hn : q1.num < 0
      · simp only [hn, if_true, List.mem_cons]
        rintro (hc | hc)
        · exact absurd hc (by decide)
        · exact natDecimal_not_mem (by decide) hc
      · simp only [hn, if_false]
        exact natDecimal_not_mem (by decide)
    have hnoslash2 : ('/') ∉ (if q2.num < 0 then '-' :: natDecimal q2.num.natAbs
        else natDecimal q2.num.natAbs) := by
      by_cases hn : q2.num < 0
      · simp only [hn, if_true, List.mem_cons]
        rintro (hc | hc)
        · exact absurd hc (by decide)
        · exact natDecimal_not_mem (by decide) hc
      · simp only [hn, if_false]
        exact natDecimal_not_mem (by decide)
    obtain ⟨hsgn, hden⟩ := append_marker_inj '/' _ _ _ _ hnoslash1 hnoslash2 h
    have hdeneq : q1.den = q2.den := natDecimal_inj hden
    have hnumeq : q1.num = q2.num := by
      by_cases hn1 : q1.num < 0 <;> by_cases hn2 : q2.num < 0
      · simp only [hn1, hn2, if_true, List.cons.injEq, true_and] at hsgn
        have := natDecimal_inj hsgn
        omega
      · simp only [hn1, hn2, if_true, if_false] at hsgn
        obtain ⟨c, cs, hT, hdig⟩ := natDecimal_head q2.num.natAbs
        rw [hT] at hsgn
        simp only [List.cons.injEq] at hsgn
        rw [← hsgn.1] at hdig
        exact absurd hdig (by decide)
      · simp only [hn1, hn2, if_true, if_false] at hsgn
        obtain ⟨c, cs, hT, hdig⟩ := natDecimal_head q1.num.natAbs
        rw [hT] at hsgn
        simp only [List.cons.injEq] at hsgn
        rw [hsgn.1] at hdig
        exact absurd hdig (by decide)
      · simp only [hn1, hn2, if_false] at hsgn
        have := natDecimal_inj hsgn
        omega
    exact Rat.ext hnumeq hdeneq

theorem pyFloatRepr_ne_none (q : ℚ) : pyFloatRepr q ≠ ("None").data := by
  intro h
  by_cases hd : 10 % q.den = 0
  · have hdot : ('.') ∈ pyFloatRepr q := by
      simp only [pyFloatRepr, hd, if_true]
      by_cases hn : q.num < 0 <;> simp [hn, tenthsChars]
    rw [h] at hdot
    exact absurd hdot (by decide)
  · have hslash := pyFloatRepr_slash_mem hd
    rw [h] at hslash
    exact absurd hslash (by decide)

theorem scoreChars_inj : ∀ o1 o2 : Option ℚ,
    scoreChars o1 = scoreChars o2 → o1 = o2
  | none, none, _ => rfl
  | none, some q, h => absurd h.symm (pyFloatRepr_ne_none q)
  | some q, none, h => absurd h (pyFloatRepr_ne_none q)
  | some q1, some q2, h => by rw [pyFloatRepr_inj h]

theorem step_cancel {A x y : List Char} (h : A ++ '|' :: x = A ++ '|' :: y) :
    x = y := by
  have h1 := List.append_cancel_left h
  injection h1

/-- C5 amended: equal field tuples give equal fingerprints, and a change of
exactly one field changes the serialized tuple — hence the fingerprint,
granted SHA-256 does not collide on the two serializations — for every
field except `rating_word`: there a change alters the fingerprint exactly
when the serialized forms differ, and an absent word serializes identically
to the literal word `None`. -/
theorem fingerprint_field_sensitivity (l : Listing) :
    (∀ l2 : Listing, l.«section» = l2.«section» → l.row = l2.row →
      l.qty = l2.qty → l.price_incl_fees = l2.price_incl_fees →
      l.value_score = l2.value_score → l.rating_word = l2.rating_word →
      l.url = l2.url → listing_fingerprint l = listing_fingerprint l2) ∧
    (∀ s, s ≠ l.«section» →
      listing_fingerprint { l with «section» := s } ≠
        listing_fingerprint l) ∧
    (∀ r, r ≠ l.row →
      listing_fingerprint { l with row := r } ≠ listing_fingerprint l) ∧
    (∀ q, q ≠ l.qty →
      listing_fingerprint { l with qty := q } ≠ listing_fingerprint l) ∧
    (∀ p, p ≠ l.price_incl_fees →
      listing_fingerprint { l with price_incl_fees := p } ≠
        listing_fingerprint l) ∧
    (∀ v, v ≠ l.value_score →
      listing_fingerprint { l with value_score := v } ≠
        listing_fingerprint l) ∧
    (∀ w, listing_fingerprint { l with rating_word := w } =
        listing_fingerprint l ↔ wordChars w = wordChars l.rating_word) ∧
    (∀ u, u ≠ l.url →
      listing_fingerprint { l with url := u } ≠ listing_fingerprint l) := by
  refine ⟨?_, ?_, ?_, ?_, ?_, ?_, ?_, ?_⟩
  · intro l2 h1 h2 h3 h4 h5 h6 h7
    cases l
    cases l2
    simp only at h1 h2 h3 h4 h5 h6 h7
    subst h1
    subst h2
    subst h3
    subst h4
    subst h5
    subst h6
    subst h7
    rfl
  · intro s hne heq
    apply hne
    have hd : fpChars { l with «section» := s } = fpChars l :=
      congrArg String.data heq
    simp only [fpChars] at hd
    exact String.ext (List.append_cancel_right hd)
  · intro r hne heq
    apply hne
    have hd : fpChars { l with row := r } = fpChars l :=
      congrArg String.data heq
    simp only [fpChars] at hd
    exact String.ext (List.append_cancel_right (step_cancel hd))
  · intro q hne heq
    apply hne
    have hd : fpChars { l with qty := q } = fpChars l :=
      congrArg String.data heq
    simp only [fpChars] at hd
    exact natDecimal_inj (List.append_cancel_right
      (step_cancel (step_cancel hd)))
  · intro p hne heq
    apply hne
    have hd : fpChars { l with price_incl_fees := p } = fpChars l :=
      congrArg String.data heq
    simp only [fpChars] at hd
    exact String.ext (List.append_cancel_right
      (step_cancel (step_cancel (step_cancel hd))))
  · intro v hne heq
    apply hne
    have hd : fpChars { l with value_score := v } = fpChars l :=
      congrArg String.data heq
    simp only [fpChars] at hd
    exact scoreChars_inj _ _ (List.append_cancel_right
      (step_cancel (step_cancel (step_cancel (step_cancel hd)))))
  · intro w
    constructor
    · intro heq
      have hd : fpChars { l with rating_word := w } = fpChars l :=
        congrArg String.data heq
      simp only [fpChars] at hd
      exact List.append_cancel_right
        (step_cancel (step_cancel (step_cancel (step_cancel
          (step_cancel hd)))))
    · intro hw
      have : fpChars { l with rating_word := w } = fpChars l := by
        simp only [fpChars]
        rw [hw]
      exact congrArg String.mk this
  · intro u hne heq
    apply hne
    have hd : fpChars { l with url := u } = fpChars l :=
      congrArg String.data heq
    simp only [fpChars] at hd
    exact String.ext
      (step_cancel (step_cancel (step_cancel (step_cancel
        (step_cancel (step_cancel hd))))))

/-- A listing whose rating word is the literal string `None`. -/
def wordNoneA : Listing :=
  { «section» := "A1", row := "B", qty := 2, price_incl_fees := "$36",
    value_score := some (mkRat 99 10), rating_word := some "None",
    url := "u" }

/-- `wordNoneA` with the rating word absent instead. -/
def wordNoneB : Listing :=
  { «section» := "A1", row := "B", qty := 2, price_incl_fees := "$36",
    value_score := some (mkRat 99 10), rating_word := none, url := "u" }

/-- C5 counterexample: two listings that differ in exactly one field — an
absent rating word versus the literal word `None` — serialize identically
(`f"{None}"` is the string `None`), so their fingerprints are equal. -/
theorem fingerprint_none_collision :
    wordNoneA.rating_word = some "None" ∧ wordNoneB.rating_word = none ∧
    wordNoneA.«section» = wordNoneB.«section» ∧
    wordNoneA.row = wordNoneB.row ∧ wordNoneA.qty = wordNoneB.qty ∧
    wordNoneA.price_incl_fees = wordNoneB.price_incl_fees ∧
    wordNoneA.value_score = wordNoneB.value_score ∧
    wordNoneA.url = wordNoneB.url ∧ wordNoneA ≠ wordNoneB ∧
    listing_fingerprint wordNoneA = listing_fingerprint wordNoneB := by
  refine ⟨rfl, rfl, rfl, rfl, rfl, rfl, rfl, rfl, by decide, by decide⟩

/-- Witness for `fingerprint_field_sensitivity`: changing the price
`$36 → $40` changes the fingerprint of a concrete listing. -/
theorem fingerprint_field_sensitivity_witness :
    ("$40" : String) ≠ "$36" ∧
    listing_fingerprint { wordNoneA with price_incl_fees := "$40" } ≠
      listing_fingerprint wordNoneA :=
  ⟨by decide, (fingerprint_field_sensitivity wordNoneA).2.2.2.2.1 "$40"
    (by decide)⟩
